import Mathlib

/-!
Verification of the address-to-city resolution procedure and the prediction
pipeline of `src/app.py` (a Streamlit house-price predictor).

Python strings are modelled as `List Char` (the inputs of interest are ASCII).
The regex search `re.search(rf"\b{c_clean}\b", addr_clean)` of line 62 is
modelled as a literal whole-word search: the catalog entry is treated as a
literal string and `\b` as a word boundary (one side a word character, the
other a non-word character or a string edge).  This is faithful exactly when
the catalog entries contain no regex metacharacters, which is made explicit as
a hypothesis where it matters.

The fuzzy fallback `difflib.get_close_matches(addr_clean, pool, n=1, cutoff=0.7)`
of line 68 is modelled after CPython's `difflib`: `SequenceMatcher` with
`seq1 = candidate`, `seq2 = word`, no junk, and autojunk inactive (it only
activates for second sequences of length ≥ 200).  Similarity ratios
`2*M/T` are represented exactly as pairs of naturals `(M, T)` and compared by
cross multiplication, which agrees with the float comparisons of `difflib`
for all realistic string lengths.  `heapq.nlargest(1, [(ratio, x), ...])`
compares pairs lexicographically, so score ties are broken towards the
lexicographically greater candidate string; this is modelled exactly.
-/

namespace HousePrice

/-- A Python string, modelled as a list of characters. -/
abbrev PyStr := List Char

/-- Lift a Lean string literal into the model. -/
def pstr (s : String) : PyStr := s.data

/-- Python `\w` on ASCII input: letters, digits and underscore. -/
def isWordChar (c : Char) : Bool := c.isAlphanum || c == '_'

/-- The characters removed by Python `str.strip()` (ASCII whitespace). -/
def pyIsSpace (c : Char) : Bool :=
  c == ' ' || c == '\t' || c == '\n' || c == '\r' || c == '\x0B' || c == '\x0C'

/-- Python `str.lower()` on ASCII input. -/
def asciiToLower (c : Char) : Char :=
  if 'A' ≤ c && c ≤ 'Z' then Char.ofNat (c.toNat + 32) else c

/-- Python `s.strip()`: drop leading and trailing whitespace. -/
def pyStrip (s : PyStr) : PyStr :=
  ((s.dropWhile pyIsSpace).reverse.dropWhile pyIsSpace).reverse

/-- Python `s.lower()` on ASCII input. -/
def pyLower (s : PyStr) : PyStr := s.map asciiToLower

/-- Python `s.strip().lower()`, used for both the address (line 57) and each
catalog entry (line 61) of `src/app.py`. -/
def stripLower (s : PyStr) : PyStr := pyLower (pyStrip s)

/-- Whether index `j` of `s` holds a word character (out of range counts as
non-word, which is also how regex word boundaries treat the string edges). -/
def wordAt (s : PyStr) (j : Nat) : Bool :=
  match s.get? j with
  | some c => isWordChar c
  | none => false

/-- Regex `\b` at position `k` of `s`: exactly one of the two adjacent sides
is a word character (a string edge counts as non-word). -/
def boundaryAt (s : PyStr) (k : Nat) : Bool :=
  (decide (0 < k) && wordAt s (k - 1)) != wordAt s k

/-- The literal string `p` occurs in `s` starting at index `i`. -/
def occursAtB (p s : PyStr) (i : Nat) : Bool :=
  (s.drop i).take p.length == p

/-- `re.search(rf"\b{p}\b", s) is not None` for a literal (metacharacter-free)
pattern `p`: some occurrence of `p` in `s` has a word boundary on both sides.
For empty `p` the pattern is `\b\b`, which matches iff `s` has any word
boundary. -/
def wholeWordSearch (p s : PyStr) : Bool :=
  (List.range (s.length + 1)).any fun i =>
    occursAtB p s i && boundaryAt s i && boundaryAt s (i + p.length)

/-- The exact-pass test of lines 61-62 of `src/app.py` for one catalog entry
`c` against the raw address: `re.search(rf"\b{c.strip().lower()}\b",
address.strip().lower())`. -/
def exactMatchB (address c : PyStr) : Bool :=
  wholeWordSearch (stripLower c) (stripLower address)

/-! ### The `difflib` model

`SequenceMatcher(None, a, b)` with `a = candidate`, `b = word`. -/

/-- Length of the longest common suffix of `a[alo..=i]` and `b[blo..=j]`:
the `j2len` dynamic program of `difflib.SequenceMatcher.find_longest_match`
computes exactly this quantity at position `(i, j)`. -/
def lcsufAt (a b : PyStr) (alo blo i j : Nat) : Nat :=
  ((List.range (min (i + 1 - alo) (j + 1 - blo))).takeWhile fun t =>
    match a.get? (i - t), b.get? (j - t) with
    | some x, some y => x == y
    | _, _ => false).length

/-- `find_longest_match(alo, ahi, blo, bhi)` without junk: the longest
matching block `(besti, bestj, bestsize)`, where ties in size are won by the
first block in scan order (smallest ending `i`, then smallest ending `j`),
exactly as in `difflib`'s strict-improvement scan. -/
def flm (a b : PyStr) (alo ahi blo bhi : Nat) : Nat × Nat × Nat :=
  let pairs := (List.range' alo (ahi - alo)).flatMap fun i =>
    (List.range' blo (bhi - blo)).map fun j => (i, j)
  let s := (pairs.map fun p => lcsufAt a b alo blo p.1 p.2).foldl max 0
  if s = 0 then (alo, blo, 0)
  else
    match pairs.find? (fun p => lcsufAt a b alo blo p.1 p.2 == s) with
    | some (i, j) => (i + 1 - s, j + 1 - s, s)
    | none => (alo, blo, 0)

/-- Total size of the matching blocks of `get_matching_blocks` restricted to
the window `[alo, ahi) × [blo, bhi)`: recursively take the longest matching
block and recurse left and right of it (each side only when both sequences
have leftover there, as in `difflib`).  `fuel` only drives the structural
recursion; every recursive call strictly shrinks `(ahi - alo) + (bhi - blo)`,
so the top-level fuel `a.length + b.length + 1` is always sufficient. -/
def matchSumF : Nat → PyStr → PyStr → Nat → Nat → Nat → Nat → Nat
  | 0, _, _, _, _, _, _ => 0
  | fuel + 1, a, b, alo, ahi, blo, bhi =>
    match flm a b alo ahi blo bhi with
    | (i, j, k) =>
      if k = 0 then 0
      else
        k + (if alo < i && blo < j then matchSumF fuel a b alo i blo j else 0)
          + (if i + k < ahi && j + k < bhi then matchSumF fuel a b (i + k) ahi (j + k) bhi else 0)

/-- `M` in `ratio = 2*M/T`: the total size of the matching blocks of
`SequenceMatcher(None, a, b)`. -/
def matchSumTop (a b : PyStr) : Nat :=
  matchSumF (a.length + b.length + 1) a b 0 a.length 0 b.length

/-- The similarity score of `SequenceMatcher(None, a, b).ratio()` kept as the
exact pair `(M, T)` with value `2*M/T` (and `1` when `T = 0`). -/
def simScore (word x : PyStr) : Nat × Nat :=
  (matchSumTop x word, x.length + word.length)

/-- The rational value of a `(M, T)` score pair: `2*M/T`, and `1` when
`T = 0` (as in `difflib._calculate_ratio`). -/
def ratioVal (m t : Nat) : ℚ :=
  if t = 0 then 1 else (2 * m : ℚ) / t

/-- The similarity `SequenceMatcher(None, x, word).ratio()` as an exact
rational. -/
def simRatio (x word : PyStr) : ℚ :=
  ratioVal (simScore word x).1 (simScore word x).2

/-- `ratio >= 0.7`, decided exactly on the `(M, T)` pair:
`2*M/T ≥ 7/10 ↔ 7*T ≤ 20*M`. -/
def cutoffOkB (s : Nat × Nat) : Bool :=
  if s.2 = 0 then true else 7 * s.2 ≤ 20 * s.1

/-- Strict comparison of two score pairs by rational value
(`2*m1/t1 > 2*m2/t2`, zero denominators meaning `1`), decided by cross
multiplication. -/
def ratioGtB (m1 t1 m2 t2 : Nat) : Bool :=
  if t1 = 0 then (if t2 = 0 then false else 2 * m2 < t2)
  else if t2 = 0 then t1 < 2 * m1
  else m2 * t1 < m1 * t2

/-- Equality of two score pairs by rational value. -/
def ratioEqB (m1 t1 m2 t2 : Nat) : Bool :=
  if t1 = 0 then (if t2 = 0 then true else 2 * m2 == t2)
  else if t2 = 0 then 2 * m1 == t1
  else m1 * t2 == m2 * t1

/-- Python string `>` : lexicographic comparison by code point. -/
def strGtB : PyStr → PyStr → Bool
  | [], _ => false
  | _ :: _, [] => true
  | a :: as, b :: bs =>
    if b.toNat < a.toNat then true
    else if a.toNat < b.toNat then false
    else strGtB as bs

/-- `(score_x, x) > (score_best, best)` — the tuple comparison used by
`heapq.nlargest` on `[(ratio, candidate), ...]`. -/
def betterB (word x best : PyStr) : Bool :=
  ratioGtB (simScore word x).1 (simScore word x).2
    (simScore word best).1 (simScore word best).2 ||
  (ratioEqB (simScore word x).1 (simScore word x).2
    (simScore word best).1 (simScore word best).2 && strGtB x best)

/-- `difflib.get_close_matches(word, poss, n=1, cutoff=0.7)`, returning the
single best match if any: filter the candidates by `ratio() >= 0.7` (the
`quick_ratio`/`real_quick_ratio` pre-filters are upper bounds of `ratio` and
therefore discard nothing extra), then take the largest `(ratio, candidate)`
pair; a strict-improvement fold returns the first maximal tuple, as
`heapq.nlargest` does. -/
def getCloseMatches1 (word : PyStr) (poss : List PyStr) : Option PyStr :=
  match poss.filter (fun x => cutoffOkB (simScore word x)) with
  | [] => none
  | c :: rest => some (rest.foldl (fun best x => if betterB word x best then x else best) c)

/-! ### The resolver (lines 55-70 of `src/app.py`) -/

/-- The fuzzy fallback of lines 66-70, entered with the value `city0` that the
`city` variable holds after the exact pass: `get_close_matches` over the
lower-cased catalog, and on a hit the map-back
`[c for c in classes if c.lower() == matches[0]][0]`, whose unchecked `[0]`
indexing is modelled as `.error ()` when the comprehension is empty; with no
close match, `city` keeps its previous value. -/
def fuzzyStep (address : PyStr) (catalog : List PyStr) (city0 : Option PyStr) :
    Except Unit (Option PyStr) :=
  match getCloseMatches1 (stripLower address) (catalog.map pyLower) with
  | none => .ok city0
  | some m =>
    match catalog.find? (fun c => pyLower c == m) with
    | some c => .ok (some c)
    | none => .error ()

/-- The city-detection block of lines 55-70.  The guard `if address:`
(line 56) is Python truthiness of the raw address; the guard `if not city:`
(line 67) is Python truthiness of the matched entry, so an exact match on an
empty-string catalog entry still falls through to the fuzzy pass. -/
def resolveCityE (address : PyStr) (catalog : List PyStr) : Except Unit (Option PyStr) :=
  if address.isEmpty then .ok none
  else
    match catalog.find? fun c => wholeWordSearch (stripLower c) (stripLower address) with
    | some c => if c.isEmpty then fuzzyStep address catalog (some c) else .ok (some c)
    | none => fuzzyStep address catalog none

/-- The resolved city as the rest of the script observes it (`some city` when
detection succeeded, `none` otherwise). -/
def resolveCity (address : PyStr) (catalog : List PyStr) : Option PyStr :=
  match resolveCityE address catalog with
  | .ok r => r
  | .error _ => none

/-- The fuzzy branch of the resolver on its own (lines 67-70): best close
match over the lower-cased pool, mapped back to the first catalog entry with
that lower-casing. -/
def fuzzyResolve (address : PyStr) (catalog : List PyStr) : Option PyStr :=
  (getCloseMatches1 (stripLower address) (catalog.map pyLower)).bind fun m =>
    catalog.find? fun c => pyLower c == m

/-- Characters that stand for themselves in a Python regex, so that
interpolating a catalog entry made of them into `rf"\b{c}\b"` (line 62) is
both error-free and a literal whole-word pattern. -/
def regexLiteralChar (c : Char) : Bool :=
  c.isAlphanum || c == '_' || c == ' ' || c == '-' || c == ','

/-! ### The prediction pipeline (lines 75-113 of `src/app.py`)

The one-row `pandas.DataFrame` is modelled as an association list from column
name to cell value; the fitted artifacts (label encoders, Yeo-Johnson
transformers, robust scaler) are parameters, since they live outside the
repository.  A `LabelEncoder`'s `transform` maps a seen label to its index in
`classes_` and raises on an unseen one, modelled with `Option`. -/

/-- A cell of the one-row dataframe: a string or a number. -/
inductive PyVal where
  | s (v : PyStr)
  | n (v : ℚ)
deriving DecidableEq

/-- The one-row dataframe. -/
abbrev Frame := List (String × PyVal)

/-- `df[col]` for reading: the value of the first column named `c`. -/
def getCol (df : Frame) (c : String) : Option PyVal :=
  (df.find? fun p => p.1 == c).map Prod.snd

/-- `df[col] = v`: overwrite the column if present, append it otherwise
(pandas semantics). -/
def setCol (df : Frame) (c : String) (v : PyVal) : Frame :=
  if df.any (fun p => p.1 == c) then
    df.map fun p => if p.1 == c then (c, v) else p
  else df ++ [(c, v)]

/-- The `raw_input` dataframe of lines 80-92, in the exact column order of the
source. -/
def buildFrame (posted_by : PyStr) (under_construction rera bhk_no : ℚ)
    (bhk_or_rk : PyStr) (square_ft ready_to_move resale longitude latitude : ℚ)
    (city : PyStr) : Frame :=
  [("POSTED_BY", .s posted_by),
   ("UNDER_CONSTRUCTION", .n under_construction),
   ("RERA", .n rera),
   ("BHK_NO.", .n bhk_no),
   ("BHK_OR_RK", .s bhk_or_rk),
   ("SQUARE_FT", .n square_ft),
   ("READY_TO_MOVE", .n ready_to_move),
   ("RESALE", .n resale),
   ("LONGITUDE", .n longitude),
   ("LATITUDE", .n latitude),
   ("CITY", .s city)]

/-- `numeric_cols` of lines 16-17. -/
def numericCols : List String :=
  ["UNDER_CONSTRUCTION", "RERA", "BHK_NO.", "SQUARE_FT",
   "READY_TO_MOVE", "RESALE", "LONGITUDE", "LATITUDE"]

/-- `LabelEncoder.transform` on one value: index in `classes_`, error
(`none`) on an unseen label or a non-string cell. -/
def leTransform (classes : List PyStr) (v : PyVal) : Option PyVal :=
  match v with
  | .s str => (classes.findIdx? fun c => c == str).map fun i => .n i
  | .n _ => none

/-- The label-encoding loop of lines 98-99: for each `(col, le)` of the
encoders dict in order, `raw_input[col] = le.transform(raw_input[col])`;
a missing column or an unseen label aborts with an error (`none`). -/
def encodeAll : List (String × List PyStr) → Frame → Option Frame
  | [], df => some df
  | p :: rest, df =>
    match (getCol df p.1).bind (leTransform p.2) with
    | some v => encodeAll rest (setCol df p.1 v)
    | none => none

/-- The Yeo-Johnson loop of lines 102-103: for each `(col, pt)` of the
transformers dict in order, `raw_input[[col]] = pt.transform(raw_input[[col]])`;
the fitted transformer itself is an abstract per-column function `ℚ → ℚ`. -/
def yeoAll : List (String × (ℚ → ℚ)) → Frame → Option Frame
  | [], df => some df
  | p :: rest, df =>
    match getCol df p.1 with
    | some (.n q) => yeoAll rest (setCol df p.1 (.n (p.2 q)))
    | _ => none

/-- Line 106: `raw_input[numeric_cols] = scaler.transform(raw_input[numeric_cols])`.
The eight numeric cells are read in `numeric_cols` order, scaled by one call
to the abstract scaler, and written back in the same order; a shape mismatch
is an error. -/
def scaleNumeric (scaler : List ℚ → List ℚ) (df : Frame) : Option Frame :=
  match numericCols.mapM (fun c =>
      match getCol df c with | some (.n q) => some q | _ => none) with
  | none => none
  | some vals =>
    let out := scaler vals
    if out.length = numericCols.length then
      some ((numericCols.zip out).foldl (fun d p => setCol d p.1 (.n p.2)) df)
    else none

/-- The whole preprocessing of lines 94-106 in source order: label encoding,
then the per-column power transforms, then the one-shot robust scaling. -/
def preprocess (encs : List (String × List PyStr)) (trs : List (String × (ℚ → ℚ)))
    (scaler : List ℚ → List ℚ) (df : Frame) : Option Frame :=
  (encodeAll encs df).bind fun d => (yeoAll trs d).bind (scaleNumeric scaler)

/-- The value of the fitted transformer dict at a column: the per-column
power transform when the column is in the dict, the identity otherwise
(`for col, pt in transformers.items()` touches only the dict's columns). -/
def trLookup (trs : List (String × (ℚ → ℚ))) (c : String) (v : ℚ) : ℚ :=
  match trs.find? (fun p => p.1 == c) with
  | some p => p.2 v
  | none => v

/-- The shape every post-encoding frame has: the eleven columns of
`buildFrame` in source order, all carrying numbers once the three categorical
columns are replaced by their integer codes. -/
def encodedFrame (ip u0 u1 u2 ib u3 u4 u5 u6 u7 ic : ℚ) : Frame :=
  [("POSTED_BY", .n ip),
   ("UNDER_CONSTRUCTION", .n u0),
   ("RERA", .n u1),
   ("BHK_NO.", .n u2),
   ("BHK_OR_RK", .n ib),
   ("SQUARE_FT", .n u3),
   ("READY_TO_MOVE", .n u4),
   ("RESALE", .n u5),
   ("LONGITUDE", .n u6),
   ("LATITUDE", .n u7),
   ("CITY", .n ic)]

/-- The eight numeric cells after the per-column power transforms, read in
`numeric_cols` order — exactly what line 106 hands to the robust scaler in
one call. -/
def yeoVals (trs : List (String × (ℚ → ℚ))) (uc rera bhk sqft rtm rs lon lat : ℚ) :
    List ℚ :=
  [trLookup trs "UNDER_CONSTRUCTION" uc, trLookup trs "RERA" rera,
   trLookup trs "BHK_NO." bhk, trLookup trs "SQUARE_FT" sqft,
   trLookup trs "READY_TO_MOVE" rtm, trLookup trs "RESALE" rs,
   trLookup trs "LONGITUDE" lon, trLookup trs "LATITUDE" lat]

/-- What one run of the script after city detection produces. -/
inductive AppOutcome where
  | warnNoCity
  | predicts (df : Frame)
  | pipelineError

/-- Lines 75-113: `if not city:` show the warning and stop; otherwise build
`raw_input`, preprocess it, and hand it to the model.  `predicts df` stands
for the prediction branch being reached with feature row `df`; the warning
branch assembles nothing and predicts nothing. -/
def appRun (address : PyStr) (catalog : List PyStr) (posted_by : PyStr)
    (under_construction rera bhk_no : ℚ) (bhk_or_rk : PyStr)
    (square_ft ready_to_move resale longitude latitude : ℚ)
    (encs : List (String × List PyStr)) (trs : List (String × (ℚ → ℚ)))
    (scaler : List ℚ → List ℚ) : AppOutcome :=
  match resolveCity address catalog with
  | none => .warnNoCity
  | some c =>
    if c.isEmpty then .warnNoCity
    else
      match preprocess encs trs scaler
        (buildFrame posted_by under_construction rera bhk_no bhk_or_rk
          square_ft ready_to_move resale longitude latitude c) with
      | some df => .predicts df
      | none => .pipelineError

/-- The whole-word occurrence hypothesis of the substring claims, as a
decidable test: `p` is non-empty, occurs in `s`, and every occurrence is glued
to a word character on at least one side (its own edge character there being a
word character as well), i.e. it only appears inside a longer word. -/
def embeddedOnlyB (p s : PyStr) : Bool :=
  !p.isEmpty &&
  (List.range (s.length + 1)).any (fun i => occursAtB p s i) &&
  (List.range (s.length + 1)).all (fun i =>
    !(occursAtB p s i) ||
    ((decide (0 < i) && wordAt s (i - 1) && wordAt p 0) ||
     (wordAt s (i + p.length) && wordAt p (p.length - 1))))

/-! ## Helper lemmas -/

theorem find?_append_first {α : Type} (p : α → Bool) (pre post : List α) (c : α)
    (hpre : ∀ x ∈ pre, p x = false) (hc : p c = true) :
    (pre ++ c :: post).find? p = some c := by
  induction pre with
  | nil => simp [List.find?_cons, hc]
  | cons a as ih =>
    have ha : p a = false := hpre a (by simp)
    simp only [List.cons_append, List.find?_cons, ha]
    exact ih fun x hx => hpre x (by simp [hx])

theorem wholeWordSearch_nil (p : PyStr) : wholeWordSearch p [] = false := by
  simp [wholeWordSearch, boundaryAt, wordAt]

theorem stripLower_nil : stripLower [] = [] := rfl

theorem stripLower_of_all_space (s : PyStr) (h : s.all pyIsSpace = true) :
    stripLower s = [] := by
  have h1 : s.dropWhile pyIsSpace = [] :=
    List.dropWhile_eq_nil_iff.mpr fun x hx => List.all_eq_true.mp h x hx
  simp [stripLower, pyStrip, pyLower, h1]

theorem flatMap_const_nil {α β : Type} (l : List α) :
    (l.flatMap fun _ => ([] : List β)) = [] := by
  induction l <;> simp_all

theorem flm_nil_right (a : PyStr) (alo ahi : Nat) : flm a [] alo ahi 0 0 = (alo, 0, 0) := by
  rw [flm]
  simp [flatMap_const_nil]

theorem matchSumTop_nil_right (a : PyStr) : matchSumTop a [] = 0 := by
  rw [matchSumTop]
  rw [show List.length ([] : PyStr) = 0 from rfl]
  simp [matchSumF, flm_nil_right]

theorem pyLower_length (s : PyStr) : (pyLower s).length = s.length := by
  simp [pyLower]

/-- If the address normalizes to the empty string and every catalog entry is
non-empty, no pool candidate reaches the 0.7 cutoff. -/
theorem cutoff_fails_of_word_nil (x : PyStr) (hx : x ≠ []) :
    cutoffOkB (simScore [] x) = false := by
  have hm : matchSumTop x [] = 0 := matchSumTop_nil_right x
  have hl : x.length ≠ 0 := fun h => hx (List.length_eq_zero.mp h)
  simp [simScore, cutoffOkB, hm, hl]

theorem pyLower_ne_nil (c : PyStr) (hc : c ≠ []) : pyLower c ≠ [] := by
  cases c with
  | nil => exact absurd rfl hc
  | cons a as => simp [pyLower]

theorem foldl_pick_mem (f : PyStr → PyStr → Bool) (l : List PyStr) :
    ∀ c : PyStr, l.foldl (fun best x => if f x best then x else best) c ∈ c :: l := by
  induction l with
  | nil => intro c; simp
  | cons x xs ih =>
    intro c
    have h := ih (if f x c then x else c)
    simp only [List.foldl_cons]
    rcases List.mem_cons.mp h with h | h
    · rw [h]
      by_cases hf : f x c = true <;> simp [hf]
    · exact List.mem_cons_of_mem _ (List.mem_cons_of_mem _ h)

theorem gcm_some_mem (word : PyStr) (poss : List PyStr) (m : PyStr)
    (h : getCloseMatches1 word poss = some m) :
    m ∈ poss ∧ cutoffOkB (simScore word m) = true := by
  rw [getCloseMatches1] at h
  rcases hf : poss.filter (fun x => cutoffOkB (simScore word x)) with _ | ⟨c, rest⟩
  · rw [hf] at h; cases h
  · rw [hf] at h
    injection h with h1
    have hm : m ∈ c :: rest := h1 ▸ foldl_pick_mem (betterB word) rest c
    rw [← hf] at hm
    exact ⟨(List.mem_filter.mp hm).1, (List.mem_filter.mp hm).2⟩

theorem gcm_none_iff (word : PyStr) (poss : List PyStr) :
    getCloseMatches1 word poss = none ↔
      ∀ x ∈ poss, cutoffOkB (simScore word x) = false := by
  rw [getCloseMatches1]
  rcases hf : poss.filter (fun x => cutoffOkB (simScore word x)) with _ | ⟨c, rest⟩
  · simp only []
    constructor
    · intro _ x hx
      by_contra hcut
      have hxf : x ∈ poss.filter (fun x => cutoffOkB (simScore word x)) :=
        List.mem_filter.mpr ⟨hx, by simpa using hcut⟩
      rw [hf] at hxf
      cases hxf
    · intro _; trivial
  · simp only []
    constructor
    · intro h; cases h
    · intro hall
      have hcf : c ∈ poss.filter (fun x => cutoffOkB (simScore word x)) := by
        rw [hf]; exact List.mem_cons_self c rest
      have hcut := (List.mem_filter.mp hcf).2
      rw [hall c (List.mem_filter.mp hcf).1] at hcut
      cases hcut

theorem mapback_isSome (catalog : List PyStr) (m : PyStr)
    (hm : m ∈ catalog.map pyLower) :
    ∃ c, catalog.find? (fun c => pyLower c == m) = some c := by
  obtain ⟨c0, hc0, rfl⟩ := List.mem_map.mp hm
  have hs : (catalog.find? fun c => pyLower c == pyLower c0).isSome :=
    List.find?_isSome.mpr ⟨c0, hc0, by simp⟩
  exact Option.isSome_iff_exists.mp hs

theorem fuzzyStep_ne_error (address : PyStr) (catalog : List PyStr) (city0 : Option PyStr) :
    ∃ r, fuzzyStep address catalog city0 = .ok r := by
  rw [fuzzyStep]
  split
  · exact ⟨city0, rfl⟩
  · next m hg =>
    split
    · next c1 _ => exact ⟨some c1, rfl⟩
    · next hfd =>
      obtain ⟨c, hc⟩ := mapback_isSome catalog m (gcm_some_mem _ _ _ hg).1
      rw [hc] at hfd
      cases hfd

theorem fuzzyStep_ok_mem (address : PyStr) (catalog : List PyStr)
    (city0 : Option PyStr) (c : PyStr)
    (hc0 : ∀ x, city0 = some x → x ∈ catalog)
    (h : fuzzyStep address catalog city0 = .ok (some c)) : c ∈ catalog := by
  rw [fuzzyStep] at h
  split at h
  · injection h with h1
    exact hc0 c h1
  · split at h
    · next c1 hfd =>
      injection h with h1
      injection h1 with h2
      exact h2 ▸ List.mem_of_find?_eq_some hfd
    · cases h

/-! ## Claim theorems -/

/-- C1: if some catalog entry's trimmed lower-cased form occurs as a whole
word in the normalized address, the resolver returns the first such entry in
catalog order (the exact pass is a short-circuiting linear scan and the fuzzy
fallback is never consulted).  The entry is required to be non-empty, since
Python's `if not city:` truthiness sends an empty-string match back to the
fuzzy pass. -/
theorem exact_first_match_wins (address : PyStr) (pre post : List PyStr) (c : PyStr)
    (hm : exactMatchB address c = true)
    (hpre : ∀ x ∈ pre, exactMatchB address x = false)
    (hc : c ≠ []) :
    resolveCity address (pre ++ c :: post) = some c := by
  have hne : ¬(address.isEmpty = true) := by
    intro he
    rw [List.isEmpty_iff.mp he] at hm
    rw [exactMatchB, stripLower_nil, wholeWordSearch_nil] at hm
    cases hm
  have hfd : ((pre ++ c :: post).find? fun x =>
      wholeWordSearch (stripLower x) (stripLower address)) = some c :=
    find?_append_first _ pre post c hpre hm
  have hcE : c.isEmpty = false := by
    cases c with
    | nil => exact absurd rfl hc
    | cons a as => rfl
  rw [resolveCity, resolveCityE, if_neg hne, hfd]
  simp [hcE]

/-- C1 witness. -/
theorem exact_first_match_wins_witness :
    resolveCity (pstr "123 MG Road, Mumbai") [pstr "Delhi", pstr "Mumbai"] =
      some (pstr "Mumbai") :=
  exact_first_match_wins (pstr "123 MG Road, Mumbai") [pstr "Delhi"] [] (pstr "Mumbai")
    (by decide) (by decide) (by decide)

/-- C3: an empty or whitespace-only address resolves to nothing when every
catalog entry is non-empty: the `if address:` guard skips an empty string
outright, and a whitespace-only one normalizes to the empty string, which
neither whole-word-matches any entry nor reaches similarity 0.7 with any
non-empty pool candidate. -/
theorem blank_address_unresolved (address : PyStr) (catalog : List PyStr)
    (hws : address.all pyIsSpace = true) (hcat : ∀ c ∈ catalog, c ≠ []) :
    resolveCity address catalog = none := by
  by_cases he : address.isEmpty
  · rw [resolveCity, resolveCityE, if_pos he]
  · have hsl : stripLower address = [] := stripLower_of_all_space address hws
    have hfind : (catalog.find? fun c =>
        wholeWordSearch (stripLower c) (stripLower address)) = none := by
      apply List.find?_eq_none.mpr
      intro c _
      rw [hsl, wholeWordSearch_nil]
      simp
    have hgcm : getCloseMatches1 (stripLower address) (catalog.map pyLower) = none := by
      apply (gcm_none_iff _ _).mpr
      intro x hx
      obtain ⟨c, hcm, rfl⟩ := List.mem_map.mp hx
      rw [hsl]
      exact cutoff_fails_of_word_nil (pyLower c) (pyLower_ne_nil c (hcat c hcm))
    have hE : resolveCityE address catalog = Except.ok none := by
      rw [resolveCityE, if_neg he, hfind]
      show fuzzyStep address catalog none = Except.ok none
      rw [fuzzyStep, hgcm]
    rw [resolveCity, hE]

/-- C3 witness. -/
theorem blank_address_unresolved_witness :
    resolveCity (pstr "   ") [pstr "Mumbai"] = none :=
  blank_address_unresolved (pstr "   ") [pstr "Mumbai"] (by decide) (by decide)

/-- C5: a resolved city is always an element of the original catalog with its
original casing (both the exact pass and the fuzzy map-back return the
catalog entry itself, never the lower-cased working copy). -/
theorem resolved_mem_catalog (address : PyStr) (catalog : List PyStr) (c : PyStr)
    (h : resolveCity address catalog = some c) : c ∈ catalog := by
  rw [resolveCity] at h
  rcases hE : resolveCityE address catalog with r | r <;> rw [hE] at h
  · cases h
  · subst h
    rw [resolveCityE] at hE
    by_cases he : address.isEmpty
    · rw [if_pos he] at hE
      injection hE with h1
      cases h1
    · rw [if_neg he] at hE
      split at hE
      · next c1 hfd =>
        split at hE
        · refine fuzzyStep_ok_mem address catalog (some c1) c ?_ hE
          intro x hx
          injection hx with hx1
          exact hx1 ▸ List.mem_of_find?_eq_some hfd
        · injection hE with h1
          injection h1 with h2
          exact h2 ▸ List.mem_of_find?_eq_some hfd
      · exact fuzzyStep_ok_mem address catalog none c (by intro x hx; cases hx) hE

/-- C5 witness. -/
theorem resolved_mem_catalog_witness :
    pstr "Mumbai" ∈ [pstr "Delhi", pstr "Mumbai"] :=
  resolved_mem_catalog (pstr "Sector 9, Mumbai West") [pstr "Delhi", pstr "Mumbai"]
    (pstr "Mumbai") (by decide)

/-- C10 (implicit): whenever the fuzzy pass returns a match, the map-back
comprehension over the catalog is non-empty — the unchecked `[0]` indexing of
line 70 cannot fail, because the candidate pool is exactly the list of
lower-casings of the catalog entries. -/
theorem fuzzy_mapback_total (address : PyStr) (catalog : List PyStr) (m : PyStr)
    (h : getCloseMatches1 (stripLower address) (catalog.map pyLower) = some m) :
    ∃ c, catalog.find? (fun c => pyLower c == m) = some c :=
  mapback_isSome catalog m (gcm_some_mem _ _ _ h).1

set_option maxRecDepth 8192 in
/-- C10 witness. -/
theorem fuzzy_mapback_total_witness :
    ∃ c, [pstr "Bangalore"].find? (fun c => pyLower c == pstr "bangalore") = some c :=
  fuzzy_mapback_total (pstr "Bangalour") [pstr "Bangalore"] (pstr "bangalore") (by decide)

/-- C4: the resolver never raises — for any address and any catalog of
distinct city names (restricted to regex-metacharacter-free entries, the
domain on which the literal model of `rf"\b{c}\b"` is exact), it terminates
normally with a value, absence of a match included. -/
theorem resolver_total (address : PyStr) (catalog : List PyStr)
    (_hdist : catalog.Pairwise (· ≠ ·))
    (_hsafe : ∀ c ∈ catalog, (pyStrip c).all regexLiteralChar = true) :
    ∃ r, resolveCityE address catalog = .ok r := by
  rw [resolveCityE]
  by_cases he : address.isEmpty
  · rw [if_pos he]; exact ⟨none, rfl⟩
  · rw [if_neg he]
    split
    · next c _ =>
      split
      · exact fuzzyStep_ne_error address catalog (some c)
      · exact ⟨some c, rfl⟩
    · exact fuzzyStep_ne_error address catalog none

theorem beq_list_eq (p q : PyStr) (h : (p == q) = true) : p = q := eq_of_beq h

theorem occursAt_get (p s : PyStr) (i : Nat) (ho : occursAtB p s i = true) :
    ∀ t, t < p.length → s.get? (i + t) = p.get? t := by
  intro t ht
  have he : (s.drop i).take p.length = p := beq_list_eq _ _ ho
  calc s.get? (i + t) = (s.drop i).get? t := (List.get?_drop s i t).symm
    _ = ((s.drop i).take p.length).get? t := (List.get?_take ht).symm
    _ = p.get? t := by rw [he]

theorem embeddedOnlyB_nil (p : PyStr) : embeddedOnlyB p [] = false := by
  rw [embeddedOnlyB]
  cases p with
  | nil => simp
  | cons a as => simp [occursAtB]

/-- An occurrence glued to a word character on a side where the pattern's own
edge character is also a word character has no word boundary there, so a
pattern that occurs only embedded in longer words never whole-word-matches. -/
theorem embedded_no_wholeword (p s : PyStr) (h : embeddedOnlyB p s = true) :
    wholeWordSearch p s = false := by
  rw [embeddedOnlyB] at h
  simp only [Bool.and_eq_true] at h
  obtain ⟨⟨hne, _hocc⟩, hall⟩ := h
  have hplen : 0 < p.length := by
    cases p with
    | nil => simp at hne
    | cons a as => simp
  rw [wholeWordSearch]
  apply List.any_eq_false.mpr
  intro i hi
  by_cases ho : occursAtB p s i = true
  · have ha := List.all_eq_true.mp hall i hi
    rw [ho] at ha
    simp only [Bool.not_true, Bool.false_or] at ha
    rcases Bool.or_eq_true_iff.mp ha with hleft | hright
    · simp only [Bool.and_eq_true, decide_eq_true_eq] at hleft
      obtain ⟨⟨hi0, hw1⟩, hw0⟩ := hleft
      have hs_i : wordAt s i = true := by
        have hg := occursAt_get p s i ho 0 hplen
        rw [Nat.add_zero] at hg
        rw [wordAt, hg]
        exact hw0
      have hb : boundaryAt s i = false := by
        rw [boundaryAt, hs_i, hw1]
        simp [hi0]
      simp [hb]
    · simp only [Bool.and_eq_true] at hright
      obtain ⟨hwE, hwL⟩ := hright
      have hs_last : wordAt s (i + p.length - 1) = true := by
        have ht : p.length - 1 < p.length := by omega
        have hg := occursAt_get p s i ho (p.length - 1) ht
        have harith : i + (p.length - 1) = i + p.length - 1 := by omega
        rw [harith] at hg
        rw [wordAt, hg]
        exact hwL
      have hb : boundaryAt s (i + p.length) = false := by
        rw [boundaryAt, hwE, hs_last]
        have h0 : decide (0 < i + p.length) = true := by
          simp; omega
        rw [h0]
        simp
      simp [hb]
  · simp [ho]

/-- C2: when every catalog entry occurs in the normalized address only inside
longer words (glued to word characters), the exact pass matches nothing and
resolution is exactly the fuzzy fallback (which may itself come up empty). -/
theorem embedded_substring_no_exact (address : PyStr) (catalog : List PyStr)
    (hall : ∀ c ∈ catalog, embeddedOnlyB (stripLower c) (stripLower address) = true) :
    (∀ c ∈ catalog, exactMatchB address c = false) ∧
    resolveCity address catalog = fuzzyResolve address catalog := by
  have hno : ∀ c ∈ catalog, exactMatchB address c = false := fun c hc =>
    embedded_no_wholeword _ _ (hall c hc)
  refine ⟨hno, ?_⟩
  by_cases he : address.isEmpty
  · have hcat : catalog = [] := by
      cases catalog with
      | nil => rfl
      | cons c cs =>
        exfalso
        have h1 := hall c (by simp)
        rw [List.isEmpty_iff.mp he, stripLower_nil, embeddedOnlyB_nil] at h1
        cases h1
    subst hcat
    rw [resolveCity, resolveCityE, if_pos he, fuzzyResolve]
    simp [getCloseMatches1]
  · have hfind : (catalog.find? fun c =>
        wholeWordSearch (stripLower c) (stripLower address)) = none :=
      List.find?_eq_none.mpr fun c hc => by
        have := hno c hc
        rw [exactMatchB] at this
        simp [this]
    rw [resolveCity, resolveCityE, if_neg he, hfind]
    show (match fuzzyStep address catalog none with
      | Except.ok r => r
      | Except.error _ => none) = fuzzyResolve address catalog
    rw [fuzzyStep, fuzzyResolve]
    rcases hg : getCloseMatches1 (stripLower address) (catalog.map pyLower) with _ | m
    · rfl
    · show (match (match catalog.find? (fun c => pyLower c == m) with
            | some c => Except.ok (some c)
            | none => Except.error ()) with
          | Except.ok r => r
          | Except.error _ => none) =
        (some m).bind fun m => catalog.find? (fun c => pyLower c == m)
      rcases hfd : catalog.find? (fun c => pyLower c == m) with _ | c
      · exact hfd.symm
      · exact hfd.symm

/-- C2 witness. -/
theorem embedded_substring_no_exact_witness :
    (∀ c ∈ [pstr "Pune"], exactMatchB (pstr "Punekarwadi") c = false) ∧
    resolveCity (pstr "Punekarwadi") [pstr "Pune"] =
      fuzzyResolve (pstr "Punekarwadi") [pstr "Pune"] :=
  embedded_substring_no_exact (pstr "Punekarwadi") [pstr "Pune"] (by decide)

theorem cutoffOkB_iff (m t : Nat) :
    cutoffOkB (m, t) = true ↔ (7 / 10 : ℚ) ≤ ratioVal m t := by
  rw [cutoffOkB, ratioVal]
  by_cases ht : t = 0
  · simp only [ht]
    norm_num
  · have htp : (0 : ℚ) < (t : ℚ) := by exact_mod_cast Nat.pos_of_ne_zero ht
    simp only [ht, if_false]
    rw [div_le_div_iff (by norm_num : (0 : ℚ) < 10) htp, decide_eq_true_eq]
    constructor
    · intro h
      have hq : ((7 * t : Nat) : ℚ) ≤ ((20 * m : Nat) : ℚ) := by exact_mod_cast h
      push_cast at hq
      linarith
    · intro h
      have hq : ((7 * t : Nat) : ℚ) ≤ ((20 * m : Nat) : ℚ) := by push_cast; linarith
      exact_mod_cast hq

theorem ratioGtB_iff (m1 t1 m2 t2 : Nat) :
    ratioGtB m1 t1 m2 t2 = true ↔ ratioVal m2 t2 < ratioVal m1 t1 := by
  rw [ratioGtB, ratioVal, ratioVal]
  by_cases ht1 : t1 = 0 <;> by_cases ht2 : t2 = 0
  · simp [ht1, ht2]
  · have htp2 : (0 : ℚ) < (t2 : ℚ) := by exact_mod_cast Nat.pos_of_ne_zero ht2
    simp only [ht1, ht2, if_true, if_false, decide_eq_true_eq]
    rw [div_lt_one htp2]
    constructor
    · intro h
      have hq : ((2 * m2 : Nat) : ℚ) < ((t2 : Nat) : ℚ) := by exact_mod_cast h
      push_cast at hq
      linarith
    · intro h
      have hq : ((2 * m2 : Nat) : ℚ) < ((t2 : Nat) : ℚ) := by push_cast; linarith
      exact_mod_cast hq
  · have htp1 : (0 : ℚ) < (t1 : ℚ) := by exact_mod_cast Nat.pos_of_ne_zero ht1
    simp only [ht1, ht2, if_true, if_false, decide_eq_true_eq]
    rw [one_lt_div htp1]
    constructor
    · intro h
      have hq : ((t1 : Nat) : ℚ) < ((2 * m1 : Nat) : ℚ) := by exact_mod_cast h
      push_cast at hq
      linarith
    · intro h
      have hq : ((t1 : Nat) : ℚ) < ((2 * m1 : Nat) : ℚ) := by push_cast; linarith
      exact_mod_cast hq
  · have htp1 : (0 : ℚ) < (t1 : ℚ) := by exact_mod_cast Nat.pos_of_ne_zero ht1
    have htp2 : (0 : ℚ) < (t2 : ℚ) := by exact_mod_cast Nat.pos_of_ne_zero ht2
    simp only [ht1, ht2, if_false, decide_eq_true_eq]
    rw [div_lt_div_iff htp2 htp1]
    constructor
    · intro h
      have hq : ((m2 * t1 : Nat) : ℚ) < ((m1 * t2 : Nat) : ℚ) := by exact_mod_cast h
      push_cast at hq
      linarith
    · intro h
      have hq : ((m2 * t1 : Nat) : ℚ) < ((m1 * t2 : Nat) : ℚ) := by push_cast; linarith
      exact_mod_cast hq

theorem ratioEqB_iff (m1 t1 m2 t2 : Nat) :
    ratioEqB m1 t1 m2 t2 = true ↔ ratioVal m1 t1 = ratioVal m2 t2 := by
  rw [ratioEqB, ratioVal, ratioVal]
  by_cases ht1 : t1 = 0 <;> by_cases ht2 : t2 = 0
  · simp [ht1, ht2]
  · have htp2 : (0 : ℚ) < (t2 : ℚ) := by exact_mod_cast Nat.pos_of_ne_zero ht2
    simp only [ht1, ht2, if_true, if_false, beq_iff_eq]
    constructor
    · intro h
      rw [eq_comm, div_eq_one_iff_eq (ne_of_gt htp2)]
      have hn : 2 * m2 = t2 := by omega
      exact_mod_cast hn
    · intro h
      rw [eq_comm, div_eq_one_iff_eq (ne_of_gt htp2)] at h
      have hn : 2 * m2 = t2 := by exact_mod_cast h
      omega
  · have htp1 : (0 : ℚ) < (t1 : ℚ) := by exact_mod_cast Nat.pos_of_ne_zero ht1
    simp only [ht1, ht2, if_true, if_false, beq_iff_eq]
    rw [div_eq_one_iff_eq (ne_of_gt htp1)]
    constructor
    · intro h
      exact_mod_cast h
    · intro h
      exact_mod_cast h
  · have htp1 : (0 : ℚ) < (t1 : ℚ) := by exact_mod_cast Nat.pos_of_ne_zero ht1
    have htp2 : (0 : ℚ) < (t2 : ℚ) := by exact_mod_cast Nat.pos_of_ne_zero ht2
    simp only [ht1, ht2, if_false, beq_iff_eq]
    rw [div_eq_div_iff (ne_of_gt htp1) (ne_of_gt htp2)]
    constructor
    · intro h
      have hq : ((m1 * t2 : Nat) : ℚ) = ((m2 * t1 : Nat) : ℚ) := by exact_mod_cast h
      push_cast at hq
      linarith
    · intro h
      have hq : ((m1 * t2 : Nat) : ℚ) = ((m2 * t1 : Nat) : ℚ) := by push_cast; linarith
      exact_mod_cast hq

theorem betterB_ge (word x best : PyStr) (h : betterB word x best = true) :
    simRatio best word ≤ simRatio x word := by
  rw [betterB] at h
  rcases Bool.or_eq_true_iff.mp h with hgt | heq
  · exact le_of_lt ((ratioGtB_iff _ _ _ _).mp hgt)
  · have h1 := (ratioEqB_iff _ _ _ _).mp (Bool.and_eq_true_iff.mp heq).1
    exact le_of_eq h1.symm

theorem betterB_le (word x best : PyStr) (h : betterB word x best = false) :
    simRatio x word ≤ simRatio best word := by
  rw [betterB] at h
  have hgt := (Bool.or_eq_false_iff.mp h).1
  have : ¬ (simRatio best word < simRatio x word) := fun hc =>
    by rw [(ratioGtB_iff _ _ _ _).mpr hc] at hgt; cases hgt
  exact not_lt.mp this

theorem foldl_pick_ge (word : PyStr) (l : List PyStr) :
    ∀ c x : PyStr, x ∈ c :: l →
      simRatio x word ≤
        simRatio (l.foldl (fun best y => if betterB word y best then y else best) c) word := by
  induction l with
  | nil =>
    intro c x hx
    rcases List.mem_cons.mp hx with rfl | h
    · exact le_refl _
    · cases h
  | cons y ys ih =>
    intro c x hx
    simp only [List.foldl_cons]
    have hc_le : simRatio c word ≤ simRatio (if betterB word y c then y else c) word := by
      by_cases hb : betterB word y c = true
      · rw [if_pos hb]; exact betterB_ge word y c hb
      · rw [if_neg hb]
    have hy_le : simRatio y word ≤ simRatio (if betterB word y c then y else c) word := by
      by_cases hb : betterB word y c = true
      · rw [if_pos hb]
      · rw [if_neg hb]
        exact betterB_le word y c (Bool.eq_false_iff.mpr hb)
    have hacc_le := ih (if betterB word y c then y else c) (if betterB word y c then y else c)
      (List.mem_cons_self _ _)
    rcases List.mem_cons.mp hx with rfl | hx2
    · exact le_trans hc_le hacc_le
    · rcases List.mem_cons.mp hx2 with rfl | hx3
      · exact le_trans hy_le hacc_le
      · exact ih _ x (List.mem_cons_of_mem _ hx3)

theorem gcm_some_max (word : PyStr) (poss : List PyStr) (m x : PyStr)
    (h : getCloseMatches1 word poss = some m) (hx : x ∈ poss)
    (hcut : cutoffOkB (simScore word x) = true) :
    simRatio x word ≤ simRatio m word := by
  rw [getCloseMatches1] at h
  rcases hf : poss.filter (fun y => cutoffOkB (simScore word y)) with _ | ⟨c, rest⟩ <;>
    rw [hf] at h
  · cases h
  · injection h with h1
    have hxf : x ∈ c :: rest := by
      rw [← hf]
      exact List.mem_filter.mpr ⟨hx, hcut⟩
    exact h1 ▸ foldl_pick_ge word rest c x hxf

theorem simRatio_eq_val (x word : PyStr) :
    simRatio x word = ratioVal (matchSumTop x word) (x.length + word.length) := rfl

/-- C7: with no exact whole-word match, resolution is the fuzzy fallback: it
keeps only pool candidates whose sequence-similarity ratio against the full
normalized address reaches 0.7, returns at most one match — a best-scoring
candidate — mapped back to the first catalog entry whose lower-casing equals
it, and yields Unresolved when no candidate reaches the cutoff. -/
theorem fuzzy_fallback_contract (address : PyStr) (catalog : List PyStr)
    (hne : address ≠ [])
    (hnoexact : ∀ c ∈ catalog, exactMatchB address c = false) :
    (getCloseMatches1 (stripLower address) (catalog.map pyLower) = none →
       resolveCity address catalog = none ∧
       ∀ x ∈ catalog.map pyLower, simRatio x (stripLower address) < 7 / 10) ∧
    (∀ m, getCloseMatches1 (stripLower address) (catalog.map pyLower) = some m →
       m ∈ catalog.map pyLower ∧
       (7 / 10 : ℚ) ≤ simRatio m (stripLower address) ∧
       (∀ x ∈ catalog.map pyLower,
          simRatio x (stripLower address) ≤ simRatio m (stripLower address)) ∧
       resolveCity address catalog = catalog.find? (fun c => pyLower c == m)) := by
  have he : ¬(address.isEmpty = true) := by
    cases address with
    | nil => exact absurd rfl hne
    | cons a as => simp
  have hfind : (catalog.find? fun c =>
      wholeWordSearch (stripLower c) (stripLower address)) = none :=
    List.find?_eq_none.mpr fun c hc => by
      have h1 := hnoexact c hc
      rw [exactMatchB] at h1
      simp [h1]
  constructor
  · intro hg
    constructor
    · rw [resolveCity, resolveCityE, if_neg he, hfind]
      show (match fuzzyStep address catalog none with
        | Except.ok r => r
        | Except.error _ => none) = none
      rw [fuzzyStep, hg]
    · intro x hx
      have hcut := (gcm_none_iff _ _).mp hg x hx
      by_contra hge
      push_neg at hge
      have hok : cutoffOkB (simScore (stripLower address) x) = true :=
        (cutoffOkB_iff _ _).mpr (by rw [← simRatio_eq_val]; exact hge)
      rw [hcut] at hok
      cases hok
  · intro m hg
    obtain ⟨hmem, hcut⟩ := gcm_some_mem _ _ _ hg
    have hm7 : (7 / 10 : ℚ) ≤ simRatio m (stripLower address) := by
      have h1 := (cutoffOkB_iff _ _).mp hcut
      rw [← simRatio_eq_val] at h1
      exact h1
    refine ⟨hmem, hm7, ?_, ?_⟩
    · intro x hx
      by_cases hcx : cutoffOkB (simScore (stripLower address) x) = true
      · exact gcm_some_max _ _ _ _ hg hx hcx
      · have hxlt : simRatio x (stripLower address) < 7 / 10 := by
          by_contra hge
          push_neg at hge
          exact hcx ((cutoffOkB_iff _ _).mpr (by rw [← simRatio_eq_val]; exact hge))
        linarith
    · rw [resolveCity, resolveCityE, if_neg he, hfind]
      show (match fuzzyStep address catalog none with
        | Except.ok r => r
        | Except.error _ => none) = catalog.find? (fun c => pyLower c == m)
      rw [fuzzyStep, hg]
      show (match (match catalog.find? (fun c => pyLower c == m) with
          | some c => Except.ok (some c)
          | none => Except.error ()) with
        | Except.ok r => r
        | Except.error _ => none) = catalog.find? (fun c => pyLower c == m)
      rcases hfd : catalog.find? (fun c => pyLower c == m) with _ | c
      · rfl
      · rfl

set_option maxRecDepth 8192 in
/-- C7 witness. -/
theorem fuzzy_fallback_contract_witness :
    (getCloseMatches1 (stripLower (pstr "Bangalour")) ([pstr "Bangalore"].map pyLower) = none →
       resolveCity (pstr "Bangalour") [pstr "Bangalore"] = none ∧
       ∀ x ∈ [pstr "Bangalore"].map pyLower,
         simRatio x (stripLower (pstr "Bangalour")) < 7 / 10) ∧
    (∀ m, getCloseMatches1 (stripLower (pstr "Bangalour")) ([pstr "Bangalore"].map pyLower) = some m →
       m ∈ [pstr "Bangalore"].map pyLower ∧
       (7 / 10 : ℚ) ≤ simRatio m (stripLower (pstr "Bangalour")) ∧
       (∀ x ∈ [pstr "Bangalore"].map pyLower,
          simRatio x (stripLower (pstr "Bangalour")) ≤
            simRatio m (stripLower (pstr "Bangalour"))) ∧
       resolveCity (pstr "Bangalour") [pstr "Bangalore"] =
         [pstr "Bangalore"].find? (fun c => pyLower c == m)) :=
  fuzzy_fallback_contract (pstr "Bangalour") [pstr "Bangalore"] (by decide) (by decide)

set_option maxRecDepth 8192 in
/-- C8 counterexample: with catalog `["Bangalore", "Bangaloue"]` and address
`"Bangalour"`, no entry exact-matches and no entry scores higher than
"Bangalore" (both score exactly `2*8/18 = 8/9`), yet resolution returns
"Bangaloue": on a score tie, `heapq.nlargest` over `(ratio, candidate)`
tuples picks the lexicographically greater candidate string, and
`"bangaloue" > "bangalore"`. -/
theorem fuzzy_tiebreak_counterexample :
    simScore (pstr "bangalour") (pstr "bangaloue") = (8, 18) ∧
    simScore (pstr "bangalour") (pstr "bangalore") = (8, 18) ∧
    (∀ c ∈ [pstr "Bangalore", pstr "Bangaloue"],
       exactMatchB (pstr "Bangalour") c = false) ∧
    resolveCity (pstr "Bangalour") [pstr "Bangalore", pstr "Bangaloue"] =
      some (pstr "Bangaloue") := by
  decide

set_option maxRecDepth 8192 in
/-- C8 (amended): for address "Bangalour" and any catalog containing
"Bangalore" with no entry exact-whole-word-matching it and every other
entry scoring strictly below 8/9 (the score of "bangalore" against
"bangalour", which meets the 0.70 cutoff), resolution returns "Bangalore";
strictness is forced by the tie-break counterexample. -/
theorem misspelled_bangalore_resolves (catalog : List PyStr)
    (hmem : pstr "Bangalore" ∈ catalog)
    (hnoexact : ∀ c ∈ catalog, exactMatchB (pstr "Bangalour") c = false)
    (hlower : ∀ c ∈ catalog, c ≠ pstr "Bangalore" →
       simRatio (pyLower c) (pstr "bangalour") < 8 / 9) :
    resolveCity (pstr "Bangalour") catalog = some (pstr "Bangalore") := by
  have he : ¬((pstr "Bangalour").isEmpty = true) := by decide
  have hsl : stripLower (pstr "Bangalour") = pstr "bangalour" := by decide
  have hfind : (catalog.find? fun c =>
      wholeWordSearch (stripLower c) (stripLower (pstr "Bangalour"))) = none :=
    List.find?_eq_none.mpr fun c hc => by
      have h1 := hnoexact c hc
      rw [exactMatchB] at h1
      simp [h1]
  have hpoollow : pyLower (pstr "Bangalore") = pstr "bangalore" := by decide
  have hpool : pstr "bangalore" ∈ catalog.map pyLower :=
    List.mem_map.mpr ⟨pstr "Bangalore", hmem, hpoollow⟩
  have hscore : simRatio (pstr "bangalore") (pstr "bangalour") = 8 / 9 := by
    rw [simRatio_eq_val]
    have hM : matchSumTop (pstr "bangalore") (pstr "bangalour") = 8 := by decide
    have hlen : (pstr "bangalore").length + (pstr "bangalour").length = 18 := by decide
    rw [hM, hlen]
    norm_num [ratioVal]
  have hcutB : cutoffOkB (simScore (pstr "bangalour") (pstr "bangalore")) = true := by decide
  rcases hgm : getCloseMatches1 (pstr "bangalour") (catalog.map pyLower) with _ | m
  · exfalso
    have := (gcm_none_iff _ _).mp hgm (pstr "bangalore") hpool
    rw [hcutB] at this
    cases this
  · have hm_eq : m = pstr "bangalore" := by
      obtain ⟨hmmem, _⟩ := gcm_some_mem _ _ _ hgm
      obtain ⟨c0, hc0, hc0m⟩ := List.mem_map.mp hmmem
      by_cases hc0b : c0 = pstr "Bangalore"
      · rw [← hc0m, hc0b, hpoollow]
      · exfalso
        have hlt := hlower c0 hc0 hc0b
        rw [hc0m] at hlt
        have hmax := gcm_some_max _ _ _ _ hgm hpool hcutB
        rw [hscore] at hmax
        linarith
    subst hm_eq
    have hfd : catalog.find? (fun c => pyLower c == pstr "bangalore") =
        some (pstr "Bangalore") := by
      have hs : (catalog.find? fun c => pyLower c == pstr "bangalore").isSome :=
        List.find?_isSome.mpr ⟨pstr "Bangalore", hmem, by decide⟩
      obtain ⟨c1, hc1⟩ := Option.isSome_iff_exists.mp hs
      have hc1mem := List.mem_of_find?_eq_some hc1
      have hc1beq := List.find?_some hc1
      have hc1p : pyLower c1 = pstr "bangalore" := eq_of_beq (by simpa using hc1beq)
      by_cases hc1b : c1 = pstr "Bangalore"
      · rw [hc1b] at hc1
        exact hc1
      · exfalso
        have hlt := hlower c1 hc1mem hc1b
        rw [hc1p, hscore] at hlt
        linarith
    rw [resolveCity, resolveCityE, if_neg he, hfind]
    show (match fuzzyStep (pstr "Bangalour") catalog none with
      | Except.ok r => r
      | Except.error _ => none) = some (pstr "Bangalore")
    rw [fuzzyStep, hsl, hgm]
    show (match (match catalog.find? (fun c => pyLower c == pstr "bangalore") with
        | some c => Except.ok (some c)
        | none => Except.error ()) with
      | Except.ok r => r
      | Except.error _ => none) = some (pstr "Bangalore")
    rw [hfd]

set_option maxRecDepth 8192 in
/-- C8 (amended) witness. -/
theorem misspelled_bangalore_resolves_witness :
    resolveCity (pstr "Bangalour") [pstr "Mumbai", pstr "Bangalore"] =
      some (pstr "Bangalore") :=
  misspelled_bangalore_resolves [pstr "Mumbai", pstr "Bangalore"]
    (by decide) (by decide) (by
      intro c hc hne
      have h1 : c = pstr "Mumbai" ∨ c = pstr "Bangalore" := by simpa using hc
      rcases h1 with rfl | rfl
      · rw [show pyLower (pstr "Mumbai") = pstr "mumbai" from by decide, simRatio_eq_val]
        have hM : matchSumTop (pstr "mumbai") (pstr "bangalour") = 2 := by decide
        have hlen : (pstr "mumbai").length + (pstr "bangalour").length = 15 := by decide
        rw [hM, hlen]
        norm_num [ratioVal]
      · exact absurd rfl hne)

/-- C4 witness. -/
theorem resolver_total_witness :
    ∃ r, resolveCityE (pstr "Flat 7, Andheri East") [pstr "Mumbai", pstr "New Delhi"] = .ok r :=
  resolver_total (pstr "Flat 7, Andheri East") [pstr "Mumbai", pstr "New Delhi"]
    (by decide) (by decide)

/-- C6: whenever city resolution comes back empty, the run produces the
warning outcome and nothing else — the dataframe assembly, the encoders, the
power transforms, the scaler and the model are all inside the `else` branch,
so no feature vector is built and no prediction value exists. -/
theorem unresolved_warns_no_prediction (address : PyStr) (catalog : List PyStr)
    (posted_by : PyStr) (under_construction rera bhk_no : ℚ) (bhk_or_rk : PyStr)
    (square_ft ready_to_move resale longitude latitude : ℚ)
    (encs : List (String × List PyStr)) (trs : List (String × (ℚ → ℚ)))
    (scaler : List ℚ → List ℚ)
    (h : resolveCity address catalog = none) :
    appRun address catalog posted_by under_construction rera bhk_no bhk_or_rk
      square_ft ready_to_move resale longitude latitude encs trs scaler =
      AppOutcome.warnNoCity := by
  rw [appRun, h]

set_option maxRecDepth 8192 in
/-- C6 witness. -/
theorem unresolved_warns_no_prediction_witness :
    appRun (pstr "Xyzzyplex") [pstr "Mumbai"] (pstr "Owner") 0 1 2 (pstr "BHK")
      1200 1 1 (777 / 10) (1297 / 100) [("POSTED_BY", [pstr "Owner"])] []
      (fun l => l) = AppOutcome.warnNoCity :=
  unresolved_warns_no_prediction (pstr "Xyzzyplex") [pstr "Mumbai"] (pstr "Owner")
    0 1 2 (pstr "BHK") 1200 1 1 (777 / 10) (1297 / 100)
    [("POSTED_BY", [pstr "Owner"])] [] (fun l => l) (by decide)

theorem eq_eight (l : List ℚ) (h : l.length = 8) :
    l = [l.getD 0 0, l.getD 1 0, l.getD 2 0, l.getD 3 0,
         l.getD 4 0, l.getD 5 0, l.getD 6 0, l.getD 7 0] := by
  rcases l with _ | ⟨a0, _ | ⟨a1, _ | ⟨a2, _ | ⟨a3, _ | ⟨a4, _ | ⟨a5, _ | ⟨a6, _ | ⟨a7, _ | ⟨a8, t⟩⟩⟩⟩⟩⟩⟩⟩⟩ <;>
    simp_all

/-- The Yeo-Johnson loop on a post-encoding frame: each transformer hits its
own numeric column once, so the result applies `trLookup` per column. -/
theorem yeoAll_encoded (trs : List (String × (ℚ → ℚ))) :
    (∀ p ∈ trs, p.1 ∈ numericCols) → trs.Pairwise (fun p q => p.1 ≠ q.1) →
    ∀ ip u0 u1 u2 ib u3 u4 u5 u6 u7 ic : ℚ,
    yeoAll trs (encodedFrame ip u0 u1 u2 ib u3 u4 u5 u6 u7 ic) =
      some (encodedFrame ip (trLookup trs "UNDER_CONSTRUCTION" u0)
        (trLookup trs "RERA" u1) (trLookup trs "BHK_NO." u2) ib
        (trLookup trs "SQUARE_FT" u3) (trLookup trs "READY_TO_MOVE" u4)
        (trLookup trs "RESALE" u5) (trLookup trs "LONGITUDE" u6)
        (trLookup trs "LATITUDE" u7) ic) := by
  induction trs with
  | nil =>
    intro _ _ ip u0 u1 u2 ib u3 u4 u5 u6 u7 ic
    simp [yeoAll, trLookup]
  | cons t rest ih =>
    intro htrs hnd ip u0 u1 u2 ib u3 u4 u5 u6 u7 ic
    obtain ⟨tc, tf⟩ := t
    have htc : tc ∈ numericCols := htrs (tc, tf) (List.mem_cons_self _ _)
    have hrest := (List.pairwise_cons.mp hnd).2
    have hne : ∀ p ∈ rest, p.1 ≠ tc := fun p hp =>
      (((List.pairwise_cons.mp hnd).1 p hp)).symm
    have ihall : ∀ p ∈ rest, p.1 ∈ numericCols := fun p hp =>
      htrs p (List.mem_cons_of_mem _ hp)
    have hfr : rest.find? (fun p => p.1 == tc) = none :=
      List.find?_eq_none.mpr fun p hp => by simpa using hne p hp
    rw [numericCols] at htc
    simp only [List.mem_cons, List.not_mem_nil, or_false] at htc
    rcases htc with h | h | h | h | h | h | h | h
    · subst h
      have hget : getCol (encodedFrame ip u0 u1 u2 ib u3 u4 u5 u6 u7 ic)
          "UNDER_CONSTRUCTION" = some (.n u0) := by simp [getCol, encodedFrame]
      have hset : setCol (encodedFrame ip u0 u1 u2 ib u3 u4 u5 u6 u7 ic)
          "UNDER_CONSTRUCTION" (.n (tf u0)) =
          encodedFrame ip (tf u0) u1 u2 ib u3 u4 u5 u6 u7 ic := by
        simp [setCol, encodedFrame]
      simp only [yeoAll, hget, hset]
      rw [ih ihall hrest]
      simp [trLookup, List.find?_cons, hfr, encodedFrame]
    · subst h
      have hget : getCol (encodedFrame ip u0 u1 u2 ib u3 u4 u5 u6 u7 ic)
          "RERA" = some (.n u1) := by simp [getCol, encodedFrame]
      have hset : setCol (encodedFrame ip u0 u1 u2 ib u3 u4 u5 u6 u7 ic)
          "RERA" (.n (tf u1)) =
          encodedFrame ip u0 (tf u1) u2 ib u3 u4 u5 u6 u7 ic := by
        simp [setCol, encodedFrame]
      simp only [yeoAll, hget, hset]
      rw [ih ihall hrest]
      simp [trLookup, List.find?_cons, hfr, encodedFrame]
    · subst h
      have hget : getCol (encodedFrame ip u0 u1 u2 ib u3 u4 u5 u6 u7 ic)
          "BHK_NO." = some (.n u2) := by simp [getCol, encodedFrame]
      have hset : setCol (encodedFrame ip u0 u1 u2 ib u3 u4 u5 u6 u7 ic)
          "BHK_NO." (.n (tf u2)) =
          encodedFrame ip u0 u1 (tf u2) ib u3 u4 u5 u6 u7 ic := by
        simp [setCol, encodedFrame]
      simp only [yeoAll, hget, hset]
      rw [ih ihall hrest]
      simp [trLookup, List.find?_cons, hfr, encodedFrame]
    · subst h
      have hget : getCol (encodedFrame ip u0 u1 u2 ib u3 u4 u5 u6 u7 ic)
          "SQUARE_FT" = some (.n u3) := by simp [getCol, encodedFrame]
      have hset : setCol (encodedFrame ip u0 u1 u2 ib u3 u4 u5 u6 u7 ic)
          "SQUARE_FT" (.n (tf u3)) =
          encodedFrame ip u0 u1 u2 ib (tf u3) u4 u5 u6 u7 ic := by
        simp [setCol, encodedFrame]
      simp only [yeoAll, hget, hset]
      rw [ih ihall hrest]
      simp [trLookup, List.find?_cons, hfr, encodedFrame]
    · subst h
      have hget : getCol (encodedFrame ip u0 u1 u2 ib u3 u4 u5 u6 u7 ic)
          "READY_TO_MOVE" = some (.n u4) := by simp [getCol, encodedFrame]
      have hset : setCol (encodedFrame ip u0 u1 u2 ib u3 u4 u5 u6 u7 ic)
          "READY_TO_MOVE" (.n (tf u4)) =
          encodedFrame ip u0 u1 u2 ib u3 (tf u4) u5 u6 u7 ic := by
        simp [setCol, encodedFrame]
      simp only [yeoAll, hget, hset]
      rw [ih ihall hrest]
      simp [trLookup, List.find?_cons, hfr, encodedFrame]
    · subst h
      have hget : getCol (encodedFrame ip u0 u1 u2 ib u3 u4 u5 u6 u7 ic)
          "RESALE" = some (.n u5) := by simp [getCol, encodedFrame]
      have hset : setCol (encodedFrame ip u0 u1 u2 ib u3 u4 u5 u6 u7 ic)
          "RESALE" (.n (tf u5)) =
          encodedFrame ip u0 u1 u2 ib u3 u4 (tf u5) u6 u7 ic := by
        simp [setCol, encodedFrame]
      simp only [yeoAll, hget, hset]
      rw [ih ihall hrest]
      simp [trLookup, List.find?_cons, hfr, encodedFrame]
    · subst h
      have hget : getCol (encodedFrame ip u0 u1 u2 ib u3 u4 u5 u6 u7 ic)
          "LONGITUDE" = some (.n u6) := by simp [getCol, encodedFrame]
      have hset : setCol (encodedFrame ip u0 u1 u2 ib u3 u4 u5 u6 u7 ic)
          "LONGITUDE" (.n (tf u6)) =
          encodedFrame ip u0 u1 u2 ib u3 u4 u5 (tf u6) u7 ic := by
        simp [setCol, encodedFrame]
      simp only [yeoAll, hget, hset]
      rw [ih ihall hrest]
      simp [trLookup, List.find?_cons, hfr, encodedFrame]
    · subst h
      have hget : getCol (encodedFrame ip u0 u1 u2 ib u3 u4 u5 u6 u7 ic)
          "LATITUDE" = some (.n u7) := by simp [getCol, encodedFrame]
      have hset : setCol (encodedFrame ip u0 u1 u2 ib u3 u4 u5 u6 u7 ic)
          "LATITUDE" (.n (tf u7)) =
          encodedFrame ip u0 u1 u2 ib u3 u4 u5 u6 (tf u7) ic := by
        simp [setCol, encodedFrame]
      simp only [yeoAll, hget, hset]
      rw [ih ihall hrest]
      simp [trLookup, List.find?_cons, hfr, encodedFrame]

/-- Line 106 on a post-transform frame: the scaler is called once on the
eight numeric cells in `numeric_cols` order and the results are written back
component-wise. -/
theorem scaleNumeric_encoded (scaler : List ℚ → List ℚ)
    (hsc : ∀ l, (scaler l).length = l.length)
    (ip v0 v1 v2 ib v3 v4 v5 v6 v7 ic : ℚ) :
    scaleNumeric scaler (encodedFrame ip v0 v1 v2 ib v3 v4 v5 v6 v7 ic) =
      some (encodedFrame ip
        ((scaler [v0, v1, v2, v3, v4, v5, v6, v7]).getD 0 0)
        ((scaler [v0, v1, v2, v3, v4, v5, v6, v7]).getD 1 0)
        ((scaler [v0, v1, v2, v3, v4, v5, v6, v7]).getD 2 0)
        ib
        ((scaler [v0, v1, v2, v3, v4, v5, v6, v7]).getD 3 0)
        ((scaler [v0, v1, v2, v3, v4, v5, v6, v7]).getD 4 0)
        ((scaler [v0, v1, v2, v3, v4, v5, v6, v7]).getD 5 0)
        ((scaler [v0, v1, v2, v3, v4, v5, v6, v7]).getD 6 0)
        ((scaler [v0, v1, v2, v3, v4, v5, v6, v7]).getD 7 0)
        ic) := by
  have hlen : (scaler [v0, v1, v2, v3, v4, v5, v6, v7]).length = 8 := by
    rw [hsc]
    simp
  have hreads : numericCols.mapM (fun c =>
      match getCol (encodedFrame ip v0 v1 v2 ib v3 v4 v5 v6 v7 ic) c with
      | some (.n q) => some q | _ => none) = some [v0, v1, v2, v3, v4, v5, v6, v7] := by
    simp [numericCols, getCol, encodedFrame, List.mapM, List.mapM.loop]
  rw [scaleNumeric, hreads]
  show (if (scaler [v0, v1, v2, v3, v4, v5, v6, v7]).length = numericCols.length then
      some ((numericCols.zip (scaler [v0, v1, v2, v3, v4, v5, v6, v7])).foldl
        (fun d p => setCol d p.1 (.n p.2))
        (encodedFrame ip v0 v1 v2 ib v3 v4 v5 v6 v7 ic))
    else none) = _
  rw [if_pos (by rw [hlen]; rfl)]
  conv_lhs => rw [eq_eight _ hlen]
  simp [numericCols, setCol, encodedFrame]

/-- The label-encoding loop on the freshly built frame: the three categorical
columns are replaced by their integer codes, everything else untouched. -/
theorem encodeAll_build (pb bork city : PyStr) (uc rera bhk sqft rtm rs lon lat : ℚ)
    (pcl bcl ccl : List PyStr) (ip ib ic : Nat)
    (hp : pcl.findIdx? (fun c => c == pb) = some ip)
    (hb : bcl.findIdx? (fun c => c == bork) = some ib)
    (hc : ccl.findIdx? (fun c => c == city) = some ic) :
    encodeAll [("POSTED_BY", pcl), ("BHK_OR_RK", bcl), ("CITY", ccl)]
      (buildFrame pb uc rera bhk bork sqft rtm rs lon lat city) =
      some (encodedFrame (ip : ℚ) uc rera bhk (ib : ℚ) sqft rtm rs lon lat (ic : ℚ)) := by
  simp [encodeAll, buildFrame, encodedFrame, getCol, setCol, leTransform, hp, hb, hc]

/-- C9: on a successful run the record handed to the model has exactly the
eleven training columns in source order; the categorical columns carry their
encoder codes, and the eight numeric cells are first power-transformed
per-column (`trLookup`, identity where no transformer exists) and then scaled
by one call to the robust scaler, written back in `numeric_cols` order. -/
theorem pipeline_feature_contract (pb bork city : PyStr)
    (uc rera bhk sqft rtm rs lon lat : ℚ)
    (pcl bcl ccl : List PyStr) (ip ib ic : Nat)
    (trs : List (String × (ℚ → ℚ))) (scaler : List ℚ → List ℚ)
    (hp : pcl.findIdx? (fun c => c == pb) = some ip)
    (hb : bcl.findIdx? (fun c => c == bork) = some ib)
    (hc : ccl.findIdx? (fun c => c == city) = some ic)
    (htrs : ∀ p ∈ trs, p.1 ∈ numericCols)
    (hnd : trs.Pairwise (fun p q => p.1 ≠ q.1))
    (hsc : ∀ l, (scaler l).length = l.length) :
    preprocess [("POSTED_BY", pcl), ("BHK_OR_RK", bcl), ("CITY", ccl)] trs scaler
      (buildFrame pb uc rera bhk bork sqft rtm rs lon lat city) =
      some (encodedFrame (ip : ℚ)
        ((scaler (yeoVals trs uc rera bhk sqft rtm rs lon lat)).getD 0 0)
        ((scaler (yeoVals trs uc rera bhk sqft rtm rs lon lat)).getD 1 0)
        ((scaler (yeoVals trs uc rera bhk sqft rtm rs lon lat)).getD 2 0)
        (ib : ℚ)
        ((scaler (yeoVals trs uc rera bhk sqft rtm rs lon lat)).getD 3 0)
        ((scaler (yeoVals trs uc rera bhk sqft rtm rs lon lat)).getD 4 0)
        ((scaler (yeoVals trs uc rera bhk sqft rtm rs lon lat)).getD 5 0)
        ((scaler (yeoVals trs uc rera bhk sqft rtm rs lon lat)).getD 6 0)
        ((scaler (yeoVals trs uc rera bhk sqft rtm rs lon lat)).getD 7 0)
        (ic : ℚ)) ∧
    (encodedFrame (ip : ℚ) 0 0 0 (ib : ℚ) 0 0 0 0 0 (ic : ℚ)).map Prod.fst =
      ["POSTED_BY", "UNDER_CONSTRUCTION", "RERA", "BHK_NO.", "BHK_OR_RK",
       "SQUARE_FT", "READY_TO_MOVE", "RESALE", "LONGITUDE", "LATITUDE", "CITY"] := by
  constructor
  · rw [preprocess, encodeAll_build pb bork city uc rera bhk sqft rtm rs lon lat
      pcl bcl ccl ip ib ic hp hb hc]
    show (yeoAll trs (encodedFrame (ip : ℚ) uc rera bhk (ib : ℚ) sqft rtm rs lon lat
      (ic : ℚ))).bind (scaleNumeric scaler) = _
    rw [yeoAll_encoded trs htrs hnd]
    show scaleNumeric scaler (encodedFrame (ip : ℚ)
      (trLookup trs "UNDER_CONSTRUCTION" uc) (trLookup trs "RERA" rera)
      (trLookup trs "BHK_NO." bhk) (ib : ℚ) (trLookup trs "SQUARE_FT" sqft)
      (trLookup trs "READY_TO_MOVE" rtm) (trLookup trs "RESALE" rs)
      (trLookup trs "LONGITUDE" lon) (trLookup trs "LATITUDE" lat) (ic : ℚ)) = _
    rw [scaleNumeric_encoded scaler hsc]
    rw [yeoVals]
  · simp [encodedFrame]

/-- C9 witness. -/
theorem pipeline_feature_contract_witness :
    preprocess [("POSTED_BY", [pstr "Owner"]), ("BHK_OR_RK", [pstr "BHK"]),
        ("CITY", [pstr "Bangalore"])] [("SQUARE_FT", fun q => q + q)] (fun l => l)
      (buildFrame (pstr "Owner") 0 1 2 (pstr "BHK") 1200 1 1 77 12 (pstr "Bangalore")) =
      some (encodedFrame ((0 : Nat) : ℚ)
        (((fun (l : List ℚ) => l) (yeoVals [("SQUARE_FT", fun q => q + q)] 0 1 2 1200 1 1 77 12)).getD 0 0)
        (((fun (l : List ℚ) => l) (yeoVals [("SQUARE_FT", fun q => q + q)] 0 1 2 1200 1 1 77 12)).getD 1 0)
        (((fun (l : List ℚ) => l) (yeoVals [("SQUARE_FT", fun q => q + q)] 0 1 2 1200 1 1 77 12)).getD 2 0)
        ((0 : Nat) : ℚ)
        (((fun (l : List ℚ) => l) (yeoVals [("SQUARE_FT", fun q => q + q)] 0 1 2 1200 1 1 77 12)).getD 3 0)
        (((fun (l : List ℚ) => l) (yeoVals [("SQUARE_FT", fun q => q + q)] 0 1 2 1200 1 1 77 12)).getD 4 0)
        (((fun (l : List ℚ) => l) (yeoVals [("SQUARE_FT", fun q => q + q)] 0 1 2 1200 1 1 77 12)).getD 5 0)
        (((fun (l : List ℚ) => l) (yeoVals [("SQUARE_FT", fun q => q + q)] 0 1 2 1200 1 1 77 12)).getD 6 0)
        (((fun (l : List ℚ) => l) (yeoVals [("SQUARE_FT", fun q => q + q)] 0 1 2 1200 1 1 77 12)).getD 7 0)
        ((0 : Nat) : ℚ)) ∧
    (encodedFrame ((0 : Nat) : ℚ) 0 0 0 ((0 : Nat) : ℚ) 0 0 0 0 0 ((0 : Nat) : ℚ)).map Prod.fst =
      ["POSTED_BY", "UNDER_CONSTRUCTION", "RERA", "BHK_NO.", "BHK_OR_RK",
       "SQUARE_FT", "READY_TO_MOVE", "RESALE", "LONGITUDE", "LATITUDE", "CITY"] :=
  pipeline_feature_contract (pstr "Owner") (pstr "BHK") (pstr "Bangalore")
    0 1 2 1200 1 1 77 12 [pstr "Owner"] [pstr "BHK"] [pstr "Bangalore"] 0 0 0
    [("SQUARE_FT", fun q => q + q)] (fun l => l)
    (by decide) (by decide) (by decide) (by decide) (by decide) (fun _ => rfl)

end HousePrice
